import Mathlib

/-!
Verification of the item-fetching fragment in `src/snippets/rust-example.rs`.

The fragment defines a two-field record `ItemDetail` deriving serde's
`Serialize`/`Deserialize`, and an async function `get_item` that issues one
HTTP GET to the fixed URL `http://localhost:3000/items/1`, decodes the JSON
response body into an `ItemDetail` (panicking via `expect` on transport or
decode failure), and prints the decoded record.

The embedding below models:
* JSON values (`Json`) and a total JSON text parser modelling serde_json's
  grammar (fuel-bounded recursive descent);
* the derived `Deserialize` impl for `ItemDetail` (`ItemDetail.fromJson`):
  the struct visitor walks the object's members in order, accepting each
  required field once as a string, rejecting duplicate or mistyped required
  fields, ignoring unknown members, and requiring both fields at the end;
* the derived `Serialize` impl (`ItemDetail.toJson`): the two fields in
  declaration order;
* `get_item` as a deterministic function of the network's behaviour,
  producing the ordered trace of observable events and the final outcome.
-/

/-- JSON values as parsed by serde_json. Numbers are kept as exact decimals
`mant * 10 ^ exp10`, which is faithful enough here: no behaviour of the
fragment depends on numeric values, only on a value being a number rather
than a string. -/
inductive Json where
  | null
  | bool (b : Bool)
  | num (mant : Int) (exp10 : Int)
  | str (s : String)
  | arr (items : List Json)
  | obj (members : List (String × Json))

/-- Whether a JSON value is a string. -/
def Json.isStr : Json → Bool
  | .str _ => true
  | _ => false

/-- The record decoded from the response body (struct `ItemDetail` in the
source, lines 3-7): two required string fields. -/
structure ItemDetail where
  data_field : String
  correct_field_name : String
deriving DecidableEq

/-- Decode failures of serde_json when deserializing an `ItemDetail`:
syntactically invalid body, missing required field, wrong type for a value,
duplicate required field, or a body that is not an object at all. -/
inductive DecodeError where
  | syntaxError (msg : String)
  | missingField (name : String)
  | invalidType (loc : String)
  | duplicateField (name : String)
deriving DecidableEq

/-- The field-visiting loop of the derived `Deserialize` impl for
`ItemDetail`: walk the object's members in order, carrying the value seen so
far for each required field. A required field seen twice is a duplicate-field
error; a required field bound to a non-string is an invalid-type error;
unknown members are ignored (serde's default without `deny_unknown_fields`). -/
def fromJsonLoop : List (String × Json) → Option String → Option String →
    Except DecodeError (Option String × Option String)
  | [], d, c => .ok (d, c)
  | (k, v) :: rest, d, c =>
    if k = "data_field" then
      match d with
      | some _ => .error (.duplicateField "data_field")
      | none =>
        match v with
        | .str s => fromJsonLoop rest (some s) c
        | _ => .error (.invalidType "data_field")
    else if k = "correct_field_name" then
      match c with
      | some _ => .error (.duplicateField "correct_field_name")
      | none =>
        match v with
        | .str s => fromJsonLoop rest d (some s)
        | _ => .error (.invalidType "correct_field_name")
    else
      fromJsonLoop rest d c

/-- The derived `Deserialize` impl for `ItemDetail`: the value must be a JSON
object, both required fields must be present as strings, and extra members
are ignored. -/
def ItemDetail.fromJson : Json → Except DecodeError ItemDetail
  | .obj members =>
    match fromJsonLoop members none none with
    | .error e => .error e
    | .ok (some d, some c) => .ok ⟨d, c⟩
    | .ok (none, _) => .error (.missingField "data_field")
    | .ok (some _, none) => .error (.missingField "correct_field_name")
  | _ => .error (.invalidType "ItemDetail")

/-- The derived `Serialize` impl for `ItemDetail`: an object with the two
fields in declaration order. -/
def ItemDetail.toJson (it : ItemDetail) : Json :=
  .obj [("data_field", .str it.data_field),
        ("correct_field_name", .str it.correct_field_name)]

/-! ### The JSON text parser (serde_json's grammar)

A total, fuel-bounded recursive-descent parser for RFC 8259 JSON, modelling
serde_json's parser as invoked by `reqwest::Response::json`. Every failure is
a returned error value, never an abort. The fuel given at the top level is
ample for any input of the given length, since at least one input character
is consumed for every two units of fuel spent. -/

/-- JSON insignificant whitespace. -/
def isJsonWs (c : Char) : Bool :=
  c == ' ' || c == '\t' || c == '\n' || c == '\r'

/-- Drop leading JSON whitespace. -/
def skipWs : List Char → List Char
  | [] => []
  | c :: cs => if isJsonWs c then skipWs cs else c :: cs

/-- Value of one hexadecimal digit. -/
def hexVal (c : Char) : Option Nat :=
  if 48 ≤ c.toNat ∧ c.toNat ≤ 57 then some (c.toNat - 48)
  else if 97 ≤ c.toNat ∧ c.toNat ≤ 102 then some (c.toNat - 87)
  else if 65 ≤ c.toNat ∧ c.toNat ≤ 70 then some (c.toNat - 55)
  else none

/-- Four hexadecimal digits of a `\uXXXX` escape. -/
def parseHex4 : List Char → Option (Nat × List Char)
  | a :: b :: c :: d :: rest => do
    let ha ← hexVal a
    let hb ← hexVal b
    let hc ← hexVal c
    let hd ← hexVal d
    pure (ha * 4096 + hb * 256 + hc * 16 + hd, rest)
  | _ => none

/-- Body of a JSON string after the opening quote: plain characters, the
short escapes, `\uXXXX` escapes with surrogate pairing, rejecting raw control
characters and lone surrogates, up to the closing quote. -/
def parseStrBody : Nat → List Char → List Char → Except String (String × List Char)
  | 0, _, _ => .error "recursion limit exceeded"
  | _, [], _ => .error "unexpected end of string"
  | fuel+1, c :: rest, acc =>
    if c == '"' then .ok (String.mk acc.reverse, rest)
    else if c == '\\' then
      match rest with
      | [] => .error "unexpected end of string"
      | e :: rest2 =>
        if e == '"' then parseStrBody fuel rest2 ('"' :: acc)
        else if e == '\\' then parseStrBody fuel rest2 ('\\' :: acc)
        else if e == '/' then parseStrBody fuel rest2 ('/' :: acc)
        else if e == 'b' then parseStrBody fuel rest2 (Char.ofNat 8 :: acc)
        else if e == 'f' then parseStrBody fuel rest2 (Char.ofNat 12 :: acc)
        else if e == 'n' then parseStrBody fuel rest2 ('\n' :: acc)
        else if e == 'r' then parseStrBody fuel rest2 ('\r' :: acc)
        else if e == 't' then parseStrBody fuel rest2 ('\t' :: acc)
        else if e == 'u' then
          match parseHex4 rest2 with
          | none => .error "invalid unicode escape"
          | some (n, rest3) =>
            if 55296 ≤ n ∧ n ≤ 56319 then
              match rest3 with
              | '\\' :: 'u' :: rest4 =>
                match parseHex4 rest4 with
                | none => .error "invalid unicode escape"
                | some (m, rest5) =>
                  if 56320 ≤ m ∧ m ≤ 57343 then
                    parseStrBody fuel rest5
                      (Char.ofNat (65536 + (n - 55296) * 1024 + (m - 56320)) :: acc)
                  else .error "unexpected surrogate"
              | _ => .error "unexpected surrogate"
            else if 56320 ≤ n ∧ n ≤ 57343 then .error "lone surrogate"
            else parseStrBody fuel rest3 (Char.ofNat n :: acc)
        else .error "invalid escape"
    else if c.toNat < 32 then .error "control character in string"
    else parseStrBody fuel rest (c :: acc)

/-- The longest leading run of decimal digits. -/
def takeDigits : List Char → List Char × List Char
  | [] => ([], [])
  | c :: cs =>
    if c.isDigit then
      let (ds, r) := takeDigits cs
      (c :: ds, r)
    else ([], c :: cs)

/-- Decimal digits to a natural number, extending an accumulator. -/
def digitsToNat (acc : Nat) (ds : List Char) : Nat :=
  ds.foldl (fun a c => a * 10 + (c.toNat - 48)) acc

/-- Optional fraction part after the integer part of a JSON number: returns
the extended mantissa and the decimal exponent. -/
def parseFrac (mant : Nat) (cs : List Char) : Except String ((Nat × Int) × List Char) :=
  match cs with
  | '.' :: r =>
    match takeDigits r with
    | ([], _) => .error "expected digit after decimal point"
    | (ds, r2) => .ok ((digitsToNat mant ds, -(ds.length : Int)), r2)
  | _ => .ok ((mant, 0), cs)

/-- Optional exponent part of a JSON number. -/
def parseExpPart (cs : List Char) : Except String (Int × List Char) :=
  match cs with
  | c :: r =>
    if c == 'e' || c == 'E' then
      let (sgn, r1) : Int × List Char :=
        match r with
        | '+' :: rr => (1, rr)
        | '-' :: rr => (-1, rr)
        | _ => (1, r)
      match takeDigits r1 with
      | ([], _) => .error "expected digit in exponent"
      | (ds, r2) => .ok (sgn * (digitsToNat 0 ds : Int), r2)
    else .ok (0, c :: r)
  | [] => .ok (0, [])

/-- A JSON number: optional minus, integer part with no superfluous leading
zero, optional fraction, optional exponent. -/
def parseNumber (cs : List Char) : Except String (Json × List Char) :=
  let (neg, cs1) : Bool × List Char :=
    match cs with
    | '-' :: r => (true, r)
    | _ => (false, cs)
  match cs1 with
  | '0' :: r =>
    match parseFrac 0 r with
    | .error m => .error m
    | .ok ((mant, e1), r2) =>
      match parseExpPart r2 with
      | .error m => .error m
      | .ok (e2, r3) =>
        .ok (.num (if neg then -(mant : Int) else (mant : Int)) (e1 + e2), r3)
  | c :: r =>
    if c.isDigit then
      match takeDigits r with
      | (ds, r1) =>
        match parseFrac (digitsToNat (c.toNat - 48) ds) r1 with
        | .error m => .error m
        | .ok ((mant, e1), r2) =>
          match parseExpPart r2 with
          | .error m => .error m
          | .ok (e2, r3) =>
            .ok (.num (if neg then -(mant : Int) else (mant : Int)) (e1 + e2), r3)
    else .error "expected digit"
  | [] => .error "expected digit"

mutual

/-- One JSON value starting at the (whitespace-skipped) head of the input. -/
def parseVal : Nat → List Char → Except String (Json × List Char)
  | 0, _ => .error "recursion limit exceeded"
  | fuel+1, cs =>
    match skipWs cs with
    | [] => .error "unexpected end of input"
    | 'n' :: 'u' :: 'l' :: 'l' :: r => .ok (.null, r)
    | 't' :: 'r' :: 'u' :: 'e' :: r => .ok (.bool true, r)
    | 'f' :: 'a' :: 'l' :: 's' :: 'e' :: r => .ok (.bool false, r)
    | '"' :: r =>
      match parseStrBody fuel r [] with
      | .error m => .error m
      | .ok (s, r2) => .ok (.str s, r2)
    | '[' :: r => parseArrItems fuel r []
    | c :: r =>
      if c == '\x7b' then parseObjMembers fuel r []
      else if c == '-' || c.isDigit then parseNumber (c :: r)
      else .error "expected value"

/-- Items of a JSON array after the opening bracket or after a comma. -/
def parseArrItems : Nat → List Char → List Json → Except String (Json × List Char)
  | 0, _, _ => .error "recursion limit exceeded"
  | fuel+1, cs, acc =>
    match skipWs cs with
    | ']' :: r =>
      if acc.isEmpty then .ok (.arr [], r)
      else .error "trailing comma"
    | cs1 =>
      match parseVal fuel cs1 with
      | .error m => .error m
      | .ok (v, r2) =>
        match skipWs r2 with
        | ',' :: r3 => parseArrItems fuel r3 (v :: acc)
        | ']' :: r3 => .ok (.arr (v :: acc).reverse, r3)
        | _ => .error "expected comma or closing bracket"

/-- Members of a JSON object after the opening brace or after a comma. -/
def parseObjMembers : Nat → List Char → List (String × Json) →
    Except String (Json × List Char)
  | 0, _, _ => .error "recursion limit exceeded"
  | fuel+1, cs, acc =>
    match skipWs cs with
    | '"' :: r =>
      match parseStrBody fuel r [] with
      | .error m => .error m
      | .ok (key, r2) =>
        match skipWs r2 with
        | ':' :: r3 =>
          match parseVal fuel r3 with
          | .error m => .error m
          | .ok (v, r4) =>
            match skipWs r4 with
            | ',' :: r5 => parseObjMembers fuel r5 ((key, v) :: acc)
            | c :: r5 =>
              if c == '\x7d' then .ok (.obj ((key, v) :: acc).reverse, r5)
              else .error "expected comma or closing brace"
            | [] => .error "unexpected end of input"
        | _ => .error "expected colon"
    | c :: r =>
      if c == '\x7d' then
        if acc.isEmpty then .ok (.obj [], r)
        else .error "trailing comma"
      else .error "key must be a string"
    | [] => .error "unexpected end of input"

end

/-- serde_json's entry point as used by `reqwest::Response::json`: one JSON
value, surrounding whitespace allowed, end of input required. -/
def Json.parse (s : String) : Except String Json :=
  match parseVal (2 * s.length + 2) s.data with
  | .error m => .error m
  | .ok (j, rest) =>
    match skipWs rest with
    | [] => .ok j
    | _ => .error "trailing characters"

/-! ### The `get_item` operation (source lines 9-18)

`get_item` is modelled as a deterministic function of the network's
behaviour. The network is a function from the requested URL to either a
transport error (the `Err` of `reqwest::get(...).await`) or a response
carrying the full body text. The model returns the ordered list of
observable events together with the terminal outcome. The two `.await`
points of the source appear as the `responseReceived` (headers obtained)
and `bodyReceived` (full body obtained, inside `.json()`) events, in the
order the source's sequential composition forces. -/

/-- A successfully obtained HTTP response, reduced to its body text (the
only part `get_item` consumes). -/
structure Response where
  body : String

/-- Observable events of one `get_item` execution, in order of occurrence. -/
inductive Event where
  | httpGet (url : String)
  | responseReceived
  | bodyReceived
  | printed (item : ItemDetail)
  | panicked (msg : String)
deriving DecidableEq

/-- An event that issues an outbound HTTP GET. -/
def Event.isGet : Event → Bool
  | .httpGet _ => true
  | _ => false

/-- An event that prints a decoded record. -/
def Event.isPrint : Event → Bool
  | .printed _ => true
  | _ => false

/-- Terminal outcome of `get_item`: the decoded record bound to `res` (and
printed), or the panic raised by the first `expect` (transport failure,
the spec's RequestError), or the panic raised by the second `expect`
(decode failure, the spec's DecodeError). -/
inductive Outcome where
  | success (item : ItemDetail)
  | requestError (msg : String)
  | decodeError (msg : String)
deriving DecidableEq

/-- The hardcoded target URL (source line 10). -/
def itemUrl : String := "http://localhost:3000/items/1"

/-- `Response::json::<ItemDetail>()` (source lines 13-14): read the full
body, parse it as JSON, run the derived deserializer. Every failure is a
returned `DecodeError`; the function is total, so no body can crash it. -/
def decodeBody (body : String) : Except DecodeError ItemDetail :=
  match Json.parse body with
  | .error m => .error (.syntaxError m)
  | .ok j => ItemDetail.fromJson j

/-- The messages of the two `expect` calls (source lines 12 and 15). -/
def requestExpectMsg : String := "Failed to send request"

/-- The message of the second `expect` (source line 15). -/
def decodeExpectMsg : String := "Fail to parse response"

/-- `get_item` (source lines 9-18) as a function of the network: issue one
GET to `itemUrl`; if the transport fails, panic with the first `expect`
message; otherwise receive the response, read and decode the body; if
decoding fails, panic with the second `expect` message; otherwise print the
decoded record. The returned list is the ordered event trace. -/
def getItem (net : String → Except String Response) : List Event × Outcome :=
  match net itemUrl with
  | .error _ =>
    ([.httpGet itemUrl, .panicked requestExpectMsg], .requestError requestExpectMsg)
  | .ok res =>
    match decodeBody res.body with
    | .error _ =>
      ([.httpGet itemUrl, .responseReceived, .bodyReceived, .panicked decodeExpectMsg],
       .decodeError decodeExpectMsg)
    | .ok item =>
      ([.httpGet itemUrl, .responseReceived, .bodyReceived, .printed item],
       .success item)

/-- A network with no server listening: every request fails at the transport
level (connection refused). -/
def refusedNet : String → Except String Response :=
  fun _ => .error "connection refused"

/-- A network answering every request with the spec's success-scenario body:
both required fields plus an extra member. -/
def okNet : String → Except String Response :=
  fun _ => .ok ⟨"\x7b\"data_field\":\"x\",\"correct_field_name\":\"y\",\"extra\":123\x7d"⟩

/-- A network answering every request with an HTML error page instead of
JSON. -/
def htmlNet : String → Except String Response :=
  fun _ => .ok ⟨"<html>oops</html>"⟩

/-! ### Lemmas about the field-visiting loop -/

/-- If a key equal to the head's key occurs in a cons whose tail has no such
key, the associated value is the head's value. -/
theorem head_mem_val {k : String} {v w : Json} {rest : List (String × Json)}
    (hhead : ∀ q ∈ rest, k ≠ q.1) (hmem : (k, w) ∈ (k, v) :: rest) : w = v := by
  rcases List.mem_cons.mp hmem with heq | h
  · simpa using heq
  · exact absurd rfl (hhead (k, w) h)

/-- Members whose keys are neither required field are skipped: the loop
returns its accumulators unchanged. -/
theorem fromJsonLoop_skip (l : List (String × Json)) (d c : Option String)
    (hd : ∀ p ∈ l, p.1 ≠ "data_field")
    (hc : ∀ p ∈ l, p.1 ≠ "correct_field_name") :
    fromJsonLoop l d c = .ok (d, c) := by
  induction l with
  | nil => rfl
  | cons p rest ih =>
    obtain ⟨k, v⟩ := p
    have hk1 : ¬(k = "data_field") := hd (k, v) (List.mem_cons_self _ _)
    have hk2 : ¬(k = "correct_field_name") := hc (k, v) (List.mem_cons_self _ _)
    simp only [fromJsonLoop, if_neg hk1, if_neg hk2]
    exact ih (fun q hq => hd q (List.mem_cons_of_mem _ hq))
      (fun q hq => hc q (List.mem_cons_of_mem _ hq))

/-- If `correct_field_name` is bound to a string and `data_field` does not
occur, the loop fills the second slot with that string. -/
theorem fromJsonLoop_cf (b : String) :
    ∀ (l : List (String × Json)) (d : Option String),
      l.Pairwise (fun p q => p.1 ≠ q.1) →
      (∀ p ∈ l, p.1 ≠ "data_field") →
      ("correct_field_name", Json.str b) ∈ l →
      fromJsonLoop l d none = .ok (d, some b) := by
  intro l
  induction l with
  | nil => intro d _ _ hmem; cases hmem
  | cons p rest ih =>
    intro d hpw hd hmem
    obtain ⟨k, v⟩ := p
    rw [List.pairwise_cons] at hpw
    obtain ⟨hhead, hpwrest⟩ := hpw
    have hk1 : ¬(k = "data_field") := hd (k, v) (List.mem_cons_self _ _)
    by_cases hk2 : k = "correct_field_name"
    · subst hk2
      have hv : v = Json.str b := (head_mem_val hhead hmem).symm
      subst hv
      simp only [fromJsonLoop, if_neg hk1, if_pos rfl]
      exact fromJsonLoop_skip rest d (some b)
        (fun q hq => hd q (List.mem_cons_of_mem _ hq))
        (fun q hq => (hhead q hq).symm)
    · have hmem' : ("correct_field_name", Json.str b) ∈ rest := by
        rcases List.mem_cons.mp hmem with heq | h
        · exact absurd (congrArg Prod.fst heq).symm hk2
        · exact h
      simp only [fromJsonLoop, if_neg hk1, if_neg hk2]
      exact ih d hpwrest (fun q hq => hd q (List.mem_cons_of_mem _ hq)) hmem'

/-- If `data_field` is bound to a string and `correct_field_name` does not
occur, the loop fills the first slot with that string. -/
theorem fromJsonLoop_df (a : String) :
    ∀ (l : List (String × Json)) (c : Option String),
      l.Pairwise (fun p q => p.1 ≠ q.1) →
      (∀ p ∈ l, p.1 ≠ "correct_field_name") →
      ("data_field", Json.str a) ∈ l →
      fromJsonLoop l none c = .ok (some a, c) := by
  intro l
  induction l with
  | nil => intro c _ _ hmem; cases hmem
  | cons p rest ih =>
    intro c hpw hc hmem
    obtain ⟨k, v⟩ := p
    rw [List.pairwise_cons] at hpw
    obtain ⟨hhead, hpwrest⟩ := hpw
    have hk2 : ¬(k = "correct_field_name") := hc (k, v) (List.mem_cons_self _ _)
    by_cases hk1 : k = "data_field"
    · subst hk1
      have hv : v = Json.str a := (head_mem_val hhead hmem).symm
      subst hv
      simp only [fromJsonLoop, if_pos rfl]
      exact fromJsonLoop_skip rest (some a) c
        (fun q hq => (hhead q hq).symm)
        (fun q hq => hc q (List.mem_cons_of_mem _ hq))
    · have hmem' : ("data_field", Json.str a) ∈ rest := by
        rcases List.mem_cons.mp hmem with heq | h
        · exact absurd (congrArg Prod.fst heq).symm hk1
        · exact h
      simp only [fromJsonLoop, if_neg hk1, if_neg hk2]
      exact ih c hpwrest (fun q hq => hc q (List.mem_cons_of_mem _ hq)) hmem'

/-- With pairwise-distinct keys and both required fields bound to strings,
the loop returns exactly those strings. -/
theorem fromJsonLoop_both (a b : String) :
    ∀ (l : List (String × Json)),
      l.Pairwise (fun p q => p.1 ≠ q.1) →
      ("data_field", Json.str a) ∈ l →
      ("correct_field_name", Json.str b) ∈ l →
      fromJsonLoop l none none = .ok (some a, some b) := by
  intro l
  induction l with
  | nil => intro _ ha _; cases ha
  | cons p rest ih =>
    intro hpw ha hb
    obtain ⟨k, v⟩ := p
    rw [List.pairwise_cons] at hpw
    obtain ⟨hhead, hpwrest⟩ := hpw
    by_cases hk1 : k = "data_field"
    · subst hk1
      have hv : v = Json.str a := (head_mem_val hhead ha).symm
      subst hv
      have hb' : ("correct_field_name", Json.str b) ∈ rest := by
        rcases List.mem_cons.mp hb with heq | h
        · exact absurd (congrArg Prod.fst heq) (by simp)
        · exact h
      simp only [fromJsonLoop, if_pos rfl]
      exact fromJsonLoop_cf b rest (some a) hpwrest
        (fun q hq => (hhead q hq).symm) hb'
    · by_cases hk2 : k = "correct_field_name"
      · subst hk2
        have hv : v = Json.str b := (head_mem_val hhead hb).symm
        subst hv
        have ha' : ("data_field", Json.str a) ∈ rest := by
          rcases List.mem_cons.mp ha with heq | h
          · exact absurd (congrArg Prod.fst heq) (by simp)
          · exact h
        simp only [fromJsonLoop, if_neg hk1, if_pos rfl]
        exact fromJsonLoop_df a rest (some b) hpwrest
          (fun q hq => (hhead q hq).symm) ha'
      · have ha' : ("data_field", Json.str a) ∈ rest := by
          rcases List.mem_cons.mp ha with heq | h
          · exact absurd (congrArg Prod.fst heq).symm hk1
          · exact h
        have hb' : ("correct_field_name", Json.str b) ∈ rest := by
          rcases List.mem_cons.mp hb with heq | h
          · exact absurd (congrArg Prod.fst heq).symm hk2
          · exact h
        simp only [fromJsonLoop, if_neg hk1, if_neg hk2]
        exact ih hpwrest ha' hb'

/-- A loop error is a decode error of the whole object. -/
theorem fromJson_obj_err {l : List (String × Json)} {e : DecodeError}
    (h : fromJsonLoop l none none = .error e) :
    ItemDetail.fromJson (Json.obj l) = .error e := by
  simp [ItemDetail.fromJson, h]

/-- A head binding `data_field` to a non-string makes the loop fail when the
first slot is still empty. -/
theorem fromJsonLoop_cons_df_nonstr (w : Json) (rest : List (String × Json))
    (c : Option String) (hw : w.isStr = false) :
    fromJsonLoop (("data_field", w) :: rest) none c =
      .error (.invalidType "data_field") := by
  cases w <;> simp_all [fromJsonLoop, Json.isStr]

/-- A head binding `correct_field_name` to a non-string makes the loop fail
when the second slot is still empty. -/
theorem fromJsonLoop_cons_cf_nonstr (w : Json) (rest : List (String × Json))
    (d : Option String) (hw : w.isStr = false) :
    fromJsonLoop (("correct_field_name", w) :: rest) d none =
      .error (.invalidType "correct_field_name") := by
  cases w <;> simp_all [fromJsonLoop, Json.isStr]

/-- Without any `data_field` member, the first slot stays empty. -/
theorem fromJsonLoop_none_of_no_df :
    ∀ (l : List (String × Json)) (c d' c' : Option String),
      (∀ v, ("data_field", v) ∉ l) →
      fromJsonLoop l none c = .ok (d', c') → d' = none := by
  intro l
  induction l with
  | nil =>
    intro c d' c' _ h
    simp only [fromJsonLoop, Except.ok.injEq, Prod.mk.injEq] at h
    exact h.1.symm
  | cons p rest ih =>
    intro c d' c' hno h
    obtain ⟨k, v⟩ := p
    by_cases hk1 : k = "data_field"
    · subst hk1
      exact absurd (List.mem_cons_self _ _) (hno v)
    · by_cases hk2 : k = "correct_field_name"
      · subst hk2
        cases c with
        | some t => simp [fromJsonLoop, hk1] at h
        | none =>
          cases v with
          | str t =>
            simp only [fromJsonLoop, if_neg hk1, if_pos rfl] at h
            exact ih (some t) d' c'
              (fun w hw => hno w (List.mem_cons_of_mem _ hw)) h
          | null => simp [fromJsonLoop, hk1] at h
          | bool b => simp [fromJsonLoop, hk1] at h
          | num m e => simp [fromJsonLoop, hk1] at h
          | arr xs => simp [fromJsonLoop, hk1] at h
          | obj ms => simp [fromJsonLoop, hk1] at h
      · simp only [fromJsonLoop, if_neg hk1, if_neg hk2] at h
        exact ih c d' c' (fun w hw => hno w (List.mem_cons_of_mem _ hw)) h

/-- Without any `correct_field_name` member, the second slot stays empty. -/
theorem fromJsonLoop_none_of_no_cf :
    ∀ (l : List (String × Json)) (d d' c' : Option String),
      (∀ v, ("correct_field_name", v) ∉ l) →
      fromJsonLoop l d none = .ok (d', c') → c' = none := by
  intro l
  induction l with
  | nil =>
    intro d d' c' _ h
    simp only [fromJsonLoop, Except.ok.injEq, Prod.mk.injEq] at h
    exact h.2.symm
  | cons p rest ih =>
    intro d d' c' hno h
    obtain ⟨k, v⟩ := p
    by_cases hk2 : k = "correct_field_name"
    · subst hk2
      exact absurd (List.mem_cons_self _ _) (hno v)
    · by_cases hk1 : k = "data_field"
      · subst hk1
        cases d with
        | some t => simp [fromJsonLoop] at h
        | none =>
          cases v with
          | str t =>
            simp only [fromJsonLoop, if_pos rfl] at h
            exact ih (some t) d' c'
              (fun w hw => hno w (List.mem_cons_of_mem _ hw)) h
          | null => simp [fromJsonLoop] at h
          | bool b => simp [fromJsonLoop] at h
          | num m e => simp [fromJsonLoop] at h
          | arr xs => simp [fromJsonLoop] at h
          | obj ms => simp [fromJsonLoop] at h
      · simp only [fromJsonLoop, if_neg hk1, if_neg hk2] at h
        exact ih d d' c' (fun w hw => hno w (List.mem_cons_of_mem _ hw)) h

/-- A `data_field` member bound to a non-string makes the loop fail, whatever
the accumulators: either as an invalid type or as a duplicate field. -/
theorem fromJsonLoop_err_of_df_nonstr :
    ∀ (l : List (String × Json)) (d c : Option String) (v : Json),
      ("data_field", v) ∈ l → v.isStr = false →
      ∃ e, fromJsonLoop l d c = .error e := by
  intro l
  induction l with
  | nil => intro d c v hmem _; cases hmem
  | cons p rest ih =>
    intro d c v hmem hstr
    obtain ⟨k, w⟩ := p
    by_cases hk1 : k = "data_field"
    · subst hk1
      cases d with
      | some s => exact ⟨.duplicateField "data_field", by simp [fromJsonLoop]⟩
      | none =>
        by_cases hws : w.isStr = false
        · exact ⟨.invalidType "data_field",
            fromJsonLoop_cons_df_nonstr w rest c hws⟩
        · cases w with
          | str t =>
            have hmem' : ("data_field", v) ∈ rest := by
              rcases List.mem_cons.mp hmem with heq | h
              · exfalso
                have hv : v = Json.str t := by simpa using heq
                rw [hv] at hstr
                simp [Json.isStr] at hstr
              · exact h
            obtain ⟨e, he⟩ := ih (some t) c v hmem' hstr
            refine ⟨e, ?_⟩
            simp only [fromJsonLoop, if_pos rfl, if_true]
            exact he
          | null => simp [Json.isStr] at hws
          | bool b => simp [Json.isStr] at hws
          | num m e => simp [Json.isStr] at hws
          | arr xs => simp [Json.isStr] at hws
          | obj ms => simp [Json.isStr] at hws
    · have hmem' : ("data_field", v) ∈ rest := by
        rcases List.mem_cons.mp hmem with heq | h
        · exact absurd (congrArg Prod.fst heq).symm hk1
        · exact h
      by_cases hk2 : k = "correct_field_name"
      · subst hk2
        cases c with
        | some s =>
          exact ⟨.duplicateField "correct_field_name",
            by simp [fromJsonLoop, hk1]⟩
        | none =>
          by_cases hws : w.isStr = false
          · exact ⟨.invalidType "correct_field_name",
              fromJsonLoop_cons_cf_nonstr w rest d hws⟩
          · cases w with
            | str t =>
              obtain ⟨e, he⟩ := ih d (some t) v hmem' hstr
              refine ⟨e, ?_⟩
              simp only [fromJsonLoop, if_neg hk1, if_pos rfl, if_true]
              exact he
            | null => simp [Json.isStr] at hws
            | bool b => simp [Json.isStr] at hws
            | num m e => simp [Json.isStr] at hws
            | arr xs => simp [Json.isStr] at hws
            | obj ms => simp [Json.isStr] at hws
      · obtain ⟨e, he⟩ := ih d c v hmem' hstr
        refine ⟨e, ?_⟩
        simp only [fromJsonLoop, if_neg hk1, if_neg hk2]
        exact he

/-- A `correct_field_name` member bound to a non-string makes the loop fail,
whatever the accumulators. -/
theorem fromJsonLoop_err_of_cf_nonstr :
    ∀ (l : List (String × Json)) (d c : Option String) (v : Json),
      ("correct_field_name", v) ∈ l → v.isStr = false →
      ∃ e, fromJsonLoop l d c = .error e := by
  intro l
  induction l with
  | nil => intro d c v hmem _; cases hmem
  | cons p rest ih =>
    intro d c v hmem hstr
    obtain ⟨k, w⟩ := p
    by_cases hk2 : k = "correct_field_name"
    · subst hk2
      cases c with
      | some s =>
        have hk1 : ¬("correct_field_name" = "data_field") := by simp
        exact ⟨.duplicateField "correct_field_name",
          by simp [fromJsonLoop, hk1]⟩
      | none =>
        by_cases hws : w.isStr = false
        · exact ⟨.invalidType "correct_field_name",
            fromJsonLoop_cons_cf_nonstr w rest d hws⟩
        · cases w with
          | str t =>
            have hmem' : ("correct_field_name", v) ∈ rest := by
              rcases List.mem_cons.mp hmem with heq | h
              · exfalso
                have hv : v = Json.str t := by simpa using heq
                rw [hv] at hstr
                simp [Json.isStr] at hstr
              · exact h
            obtain ⟨e, he⟩ := ih d (some t) v hmem' hstr
            have hk1 : ¬("correct_field_name" = "data_field") := by simp
            refine ⟨e, ?_⟩
            simp only [fromJsonLoop, if_neg hk1, if_pos rfl, if_true]
            exact he
          | null => simp [Json.isStr] at hws
          | bool b => simp [Json.isStr] at hws
          | num m e => simp [Json.isStr] at hws
          | arr xs => simp [Json.isStr] at hws
          | obj ms => simp [Json.isStr] at hws
    · have hmem' : ("correct_field_name", v) ∈ rest := by
        rcases List.mem_cons.mp hmem with heq | h
        · exact absurd (congrArg Prod.fst heq).symm hk2
        · exact h
      by_cases hk1 : k = "data_field"
      · subst hk1
        cases d with
        | some s => exact ⟨.duplicateField "data_field", by simp [fromJsonLoop]⟩
        | none =>
          by_cases hws : w.isStr = false
          · exact ⟨.invalidType "data_field",
              fromJsonLoop_cons_df_nonstr w rest c hws⟩
          · cases w with
            | str t =>
              obtain ⟨e, he⟩ := ih (some t) c v hmem' hstr
              refine ⟨e, ?_⟩
              simp only [fromJsonLoop, if_pos rfl, if_true]
              exact he
            | null => simp [Json.isStr] at hws
            | bool b => simp [Json.isStr] at hws
            | num m e => simp [Json.isStr] at hws
            | arr xs => simp [Json.isStr] at hws
            | obj ms => simp [Json.isStr] at hws
      · obtain ⟨e, he⟩ := ih d c v hmem' hstr
        refine ⟨e, ?_⟩
        simp only [fromJsonLoop, if_neg hk1, if_neg hk2]
        exact he

/-! ### The claims -/

/-- C1: for every JSON object whose properties include `data_field` and
`correct_field_name` both with string values, decoding it as `ItemDetail`
succeeds and produces a record whose two fields equal those string values
exactly, for any set of additional properties present in the object, which
are ignored. (An object's property set has pairwise-distinct names.) -/
theorem claim_c1_decode_ok (l : List (String × Json)) (a b : String)
    (hpw : l.Pairwise (fun p q => p.1 ≠ q.1))
    (ha : ("data_field", Json.str a) ∈ l)
    (hb : ("correct_field_name", Json.str b) ∈ l) :
    ItemDetail.fromJson (Json.obj l) = .ok ⟨a, b⟩ := by
  have h := fromJsonLoop_both a b l hpw ha hb
  simp [ItemDetail.fromJson, h]

/-- Witness for C1: the spec's success scenario object, extra member
included. -/
theorem claim_c1_witness :
    ItemDetail.fromJson (Json.obj [("extra", Json.num 123 0),
      ("data_field", Json.str "x"), ("correct_field_name", Json.str "y")]) =
      .ok ⟨"x", "y"⟩ :=
  claim_c1_decode_ok _ "x" "y" (by simp) (by simp) (by simp)

/-- C3: for every JSON object in which either required field is absent, or
is present with a non-string value, decoding as `ItemDetail` fails with a
`DecodeError` (and, the result being an `Except` error, carries no partial
`ItemDetail`). -/
theorem claim_c3_decode_err (l : List (String × Json))
    (h : (∀ v, ("data_field", v) ∉ l) ∨ (∀ v, ("correct_field_name", v) ∉ l) ∨
         (∃ v, ("data_field", v) ∈ l ∧ v.isStr = false) ∨
         (∃ v, ("correct_field_name", v) ∈ l ∧ v.isStr = false)) :
    ∃ e, ItemDetail.fromJson (Json.obj l) = .error e := by
  rcases h with h | h | ⟨v, hv, hs⟩ | ⟨v, hv, hs⟩
  · cases hLoop : fromJsonLoop l none none with
    | error e => exact ⟨e, fromJson_obj_err hLoop⟩
    | ok dc =>
      obtain ⟨d', c'⟩ := dc
      have hd' : d' = none := fromJsonLoop_none_of_no_df l none d' c' h hLoop
      subst hd'
      refine ⟨.missingField "data_field", ?_⟩
      simp [ItemDetail.fromJson, hLoop]
  · cases hLoop : fromJsonLoop l none none with
    | error e => exact ⟨e, fromJson_obj_err hLoop⟩
    | ok dc =>
      obtain ⟨d', c'⟩ := dc
      have hc' : c' = none := fromJsonLoop_none_of_no_cf l none d' c' h hLoop
      subst hc'
      cases d' with
      | none =>
        refine ⟨.missingField "data_field", ?_⟩
        simp [ItemDetail.fromJson, hLoop]
      | some s =>
        refine ⟨.missingField "correct_field_name", ?_⟩
        simp [ItemDetail.fromJson, hLoop]
  · obtain ⟨e, he⟩ := fromJsonLoop_err_of_df_nonstr l none none v hv hs
    exact ⟨e, fromJson_obj_err he⟩
  · obtain ⟨e, he⟩ := fromJsonLoop_err_of_cf_nonstr l none none v hv hs
    exact ⟨e, fromJson_obj_err he⟩

/-- Witness for C3: the spec's missing-field scenario object. -/
theorem claim_c3_witness :
    ∃ e, ItemDetail.fromJson (Json.obj [("data_field", Json.str "x")]) =
      .error e :=
  claim_c3_decode_err _ (Or.inr (Or.inl (by simp)))

/-- C9: serializing an `ItemDetail` to JSON and deserializing that JSON
yields the original record. -/
theorem claim_c9_roundtrip (it : ItemDetail) :
    ItemDetail.fromJson (ItemDetail.toJson it) = .ok it := by
  cases it
  rfl

/-- C10: a JSON object binding `data_field` or `correct_field_name` to JSON
null fails to decode as `ItemDetail`: null is not accepted as a string
value. -/
theorem claim_c10_decode_err_null (l : List (String × Json))
    (h : ("data_field", Json.null) ∈ l ∨ ("correct_field_name", Json.null) ∈ l) :
    ∃ e, ItemDetail.fromJson (Json.obj l) = .error e := by
  rcases h with h | h
  · obtain ⟨e, he⟩ := fromJsonLoop_err_of_df_nonstr l none none Json.null h rfl
    exact ⟨e, fromJson_obj_err he⟩
  · obtain ⟨e, he⟩ := fromJsonLoop_err_of_cf_nonstr l none none Json.null h rfl
    exact ⟨e, fromJson_obj_err he⟩

/-- Witness for C10: `data_field` bound to null, the other field well
formed. -/
theorem claim_c10_witness :
    ∃ e, ItemDetail.fromJson (Json.obj [("data_field", Json.null),
      ("correct_field_name", Json.str "y")]) = .error e :=
  claim_c10_decode_err_null _ (Or.inl (by simp))

/-- C2: when the transport succeeds and the body decodes, the operation's
outcome is the populated decoded `ItemDetail` (the value the source binds to
`res` and prints; the spec states the `fetch_item() -> ItemDetail` contract
conceptually). -/
theorem claim_c2_success_outcome (net : String → Except String Response)
    (res : Response) (item : ItemDetail)
    (hnet : net itemUrl = .ok res) (hdec : decodeBody res.body = .ok item) :
    (getItem net).2 = .success item := by
  simp [getItem, hnet, hdec]

/-- Witness for C2: the spec's success scenario. -/
theorem claim_c2_witness :
    (getItem okNet).2 = .success ⟨"x", "y"⟩ :=
  claim_c2_success_outcome okNet
    ⟨"\x7b\"data_field\":\"x\",\"correct_field_name\":\"y\",\"extra\":123\x7d"⟩
    ⟨"x", "y"⟩ rfl (by rfl)

/-- C4: for every response body that is not valid JSON, the decode step
fails with a (syntax) `DecodeError`, and the operation's outcome is the
decode failure. `decodeBody` is a total function, so no body crashes it with
an unhandled fault. -/
theorem claim_c4_malformed_body (net : String → Except String Response)
    (res : Response) (m : String)
    (hnet : net itemUrl = .ok res) (hparse : Json.parse res.body = .error m) :
    decodeBody res.body = .error (.syntaxError m) ∧
    (getItem net).2 = .decodeError decodeExpectMsg := by
  have hdec : decodeBody res.body = .error (.syntaxError m) := by
    simp [decodeBody, hparse]
  exact ⟨hdec, by simp [getItem, hnet, hdec]⟩

/-- Witness for C4: an HTML error page instead of JSON. -/
theorem claim_c4_witness :
    decodeBody "<html>oops</html>" = .error (.syntaxError "expected value") ∧
    (getItem htmlNet).2 = .decodeError decodeExpectMsg :=
  claim_c4_malformed_body htmlNet ⟨"<html>oops</html>"⟩ "expected value"
    rfl (by rfl)

/-- C5: when the transport exchange cannot complete, the operation fails
with the request-error outcome; the trace shows the single GET followed
immediately by the abort, so nothing is retried and no later event occurs. -/
theorem claim_c5_transport_failure (net : String → Except String Response)
    (e : String) (hnet : net itemUrl = .error e) :
    (getItem net).1 = [.httpGet itemUrl, .panicked requestExpectMsg] ∧
    (getItem net).2 = .requestError requestExpectMsg := by
  simp [getItem, hnet]

/-- Witness for C5: no server listening. -/
theorem claim_c5_witness :
    (getItem refusedNet).1 = [.httpGet itemUrl, .panicked requestExpectMsg] ∧
    (getItem refusedNet).2 = .requestError requestExpectMsg :=
  claim_c5_transport_failure refusedNet "connection refused" rfl

/-- C6: on success the decoded record is printed (as the last event); on
either failure kind, no print event occurs at all and the operation ends
abnormally, its last event being the panic. Failure outcomes carry no
`ItemDetail`, so no partial data is produced. -/
theorem claim_c6_print_on_success_only (net : String → Except String Response) :
    (∀ item, (getItem net).2 = .success item →
      (getItem net).1.getLast? = some (.printed item)) ∧
    (∀ m, (getItem net).2 = .requestError m ∨ (getItem net).2 = .decodeError m →
      (getItem net).1.filter Event.isPrint = [] ∧
      (getItem net).1.getLast? = some (.panicked m)) := by
  rcases hnet : net itemUrl with e | res
  · refine ⟨?_, ?_⟩
    · intro item h
      simp [getItem, hnet] at h
    · intro m hm
      rcases hm with hm | hm
      · simp [getItem, hnet] at hm
        subst hm
        simp [getItem, hnet, Event.isPrint]
      · simp [getItem, hnet] at hm
  · rcases hdec : decodeBody res.body with e2 | item0
    · refine ⟨?_, ?_⟩
      · intro item h
        simp [getItem, hnet, hdec] at h
      · intro m hm
        rcases hm with hm | hm
        · simp [getItem, hnet, hdec] at hm
        · simp [getItem, hnet, hdec] at hm
          subst hm
          simp [getItem, hnet, hdec, Event.isPrint]
    · refine ⟨?_, ?_⟩
      · intro item h
        simp [getItem, hnet, hdec] at h
        subst h
        simp [getItem, hnet, hdec]
      · intro m hm
        rcases hm with hm | hm
        · simp [getItem, hnet, hdec] at hm
        · simp [getItem, hnet, hdec] at hm

/-- Witness for C6: on the success scenario, the last event prints the
decoded record. -/
theorem claim_c6_witness :
    (getItem okNet).1.getLast? = some (.printed ⟨"x", "y"⟩) :=
  (claim_c6_print_on_success_only okNet).1 ⟨"x", "y"⟩ (by rfl)

/-- C7: every execution issues exactly one outbound HTTP GET, and its target
is the fixed URL, independent of the network's behaviour (the operation has
no parameters besides the ambient network). -/
theorem claim_c7_single_fixed_get (net : String → Except String Response) :
    (getItem net).1.filter Event.isGet = [Event.httpGet itemUrl] ∧
    itemUrl = "http://localhost:3000/items/1" := by
  refine ⟨?_, rfl⟩
  rcases hnet : net itemUrl with e | res
  · simp [getItem, hnet, Event.isGet]
  · rcases hdec : decodeBody res.body with e2 | item <;>
      simp [getItem, hnet, hdec, Event.isGet]

/-- C8: in every execution the events are strictly sequential: a body read
is always preceded by the reception of the response headers, which is itself
always preceded by the issuing of the GET request. -/
theorem claim_c8_sequential (net : String → Except String Response) :
    (∀ i, (getItem net).1.get? i = some Event.bodyReceived →
      ∃ j, j < i ∧ (getItem net).1.get? j = some Event.responseReceived) ∧
    (∀ i, (getItem net).1.get? i = some Event.responseReceived →
      ∃ j, j < i ∧ (getItem net).1.get? j = some (Event.httpGet itemUrl)) := by
  rcases hnet : net itemUrl with e | res
  · refine ⟨?_, ?_⟩
    · intro i hi
      rcases i with _ | _ | i <;> simp [getItem, hnet, List.get?] at hi
    · intro i hi
      rcases i with _ | _ | i <;> simp [getItem, hnet, List.get?] at hi
  · rcases hdec : decodeBody res.body with e2 | item
    · refine ⟨?_, ?_⟩
      · intro i hi
        rcases i with _ | _ | _ | _ | i <;>
          simp [getItem, hnet, hdec, List.get?] at hi
        exact ⟨1, by omega, by simp [getItem, hnet, hdec, List.get?]⟩
      · intro i hi
        rcases i with _ | _ | _ | _ | i <;>
          simp [getItem, hnet, hdec, List.get?] at hi
        exact ⟨0, by omega, by simp [getItem, hnet, hdec, List.get?]⟩
    · refine ⟨?_, ?_⟩
      · intro i hi
        rcases i with _ | _ | _ | _ | i <;>
          simp [getItem, hnet, hdec, List.get?] at hi
        exact ⟨1, by omega, by simp [getItem, hnet, hdec, List.get?]⟩
      · intro i hi
        rcases i with _ | _ | _ | _ | i <;>
          simp [getItem, hnet, hdec, List.get?] at hi
        exact ⟨0, by omega, by simp [getItem, hnet, hdec, List.get?]⟩

/-- Witness for C8: on the success scenario, the body read at index 2 is
preceded by a headers event. -/
theorem claim_c8_witness :
    ∃ j, j < 2 ∧ (getItem okNet).1.get? j = some Event.responseReceived :=
  (claim_c8_sequential okNet).1 2 (by rfl)
